import Mathlib

/-!
Shallow embedding of the twitch-style-game server (tick-driven two-team cube
race with walls, one-way ledges and pushable boulders).

The current server lives in `src/unnamed/part_000` (teams `red`, `blue`,
map-file loading, boulders, ledges); `src/server.js` is an earlier variant
with clamp-to-bounds movement, modelled in the `ServerJs` namespace below.

Coordinates are JavaScript numbers used only as small integers, embedded as
`Int`.  Booleans returned by the JS helper functions are embedded as
decidable propositions.  The JS object-identity `ignoreCube` parameter of
`isCubeAt` is embedded by passing the list of the *other* teams' cube
positions (with two teams: the one other cube) — during a cube's own move
the team objects other than the mover are exactly the obstacles the source
checks, read at their current (possibly already moved this tick) positions.
-/

set_option maxRecDepth 4000

/-- A grid cell, 0-indexed, origin top-left (`{x, y}` objects in the source). -/
structure Cell where
  x : Int
  y : Int
deriving DecidableEq, Repr

/-- Team identifiers `TEAM_IDS = ['red', 'blue']`, in configuration order. -/
inductive TeamId where
  | red
  | blue
deriving DecidableEq, Repr

/-- The in-memory map structure returned by `loadMapFromFile`:
dimensions, wall cells (`#`), ledge cells (`V`), goal (`G`), per-team start
cells (`R`, `B`) and initial boulder cells (`O`). -/
structure MapDef where
  width : Int
  height : Int
  walls : List Cell
  ledges : List Cell
  hole : Cell
  startRed : Cell
  startBlue : Cell
  boulders : List Cell
deriving DecidableEq, Repr

/-- Per-team mutable state: cube position and FIFO command queue
(the queue holds the validated direction strings the intake handler pushed). -/
structure Team where
  cube : Cell
  commandQueue : List String
deriving DecidableEq, Repr

/-- The server's mutable game state: the two team records (insertion order
red, blue), the current boulder list, and the `raceStarted` flag. -/
structure GameState where
  red : Team
  blue : Team
  boulders : List Cell
  raceStarted : Bool
deriving DecidableEq, Repr

/-- Per-connection player record: `{ teamId, lastCommandTime }`; only the
timestamp matters to the intake logic. -/
structure Player where
  lastCommandTime : Int
deriving DecidableEq, Repr

/-- Cooldown constant `COMMAND_COOLDOWN_MS = 1000`. -/
def COMMAND_COOLDOWN_MS : Int := 1000

/-- Horizontal delta of a command string
(`if (cmd === 'left') dx = -1; if (cmd === 'right') dx = 1;`). -/
def dxOf (c : String) : Int :=
  if c = "left" then -1 else if c = "right" then 1 else 0

/-- Vertical delta of a command string
(`if (cmd === 'up') dy = -1; if (cmd === 'down') dy = 1;`). -/
def dyOf (c : String) : Int :=
  if c = "up" then -1 else if c = "down" then 1 else 0

/-- Predicate `isWall(x, y)`: some wall cell of the current map is at `(x, y)`. -/
def isWall (m : MapDef) (x y : Int) : Prop :=
  ∃ w ∈ m.walls, w.x = x ∧ w.y = y

instance (m : MapDef) (x y : Int) : Decidable (isWall m x y) :=
  List.decidableBEx _ m.walls

/-- Predicate `isLedge(x, y)`: some ledge cell of the current map is at `(x, y)`. -/
def isLedge (m : MapDef) (x y : Int) : Prop :=
  ∃ l ∈ m.ledges, l.x = x ∧ l.y = y

instance (m : MapDef) (x y : Int) : Decidable (isLedge m x y) :=
  List.decidableBEx _ m.ledges

/-- Lookup `boulders.findIndex(b => b.x === x && b.y === y)`: index of the first
boulder at `(x, y)`, `none` standing for the source's `-1`. -/
def boulderIndexAt (bs : List Cell) (x y : Int) : Option Nat :=
  match bs with
  | [] => none
  | b :: rest =>
      if b.x = x ∧ b.y = y then some 0
      else (boulderIndexAt rest x y).map (· + 1)

/-- Predicate `isBoulder(x, y)`: `boulderIndexAt(x, y) !== -1`. -/
def isBoulder (bs : List Cell) (x y : Int) : Prop :=
  boulderIndexAt bs x y ≠ none

instance (bs : List Cell) (x y : Int) : Decidable (isBoulder bs x y) := by
  unfold isBoulder; infer_instance

/-- Predicate `isCubeAt(x, y, ignoreCube)`: some cube other than the mover's own is at
`(x, y)`.  `others` is the list of the non-ignored teams' cube positions. -/
def isCubeAt (others : List Cell) (x y : Int) : Prop :=
  ∃ c ∈ others, c.x = x ∧ c.y = y

instance (others : List Cell) (x y : Int) : Decidable (isCubeAt others x y) :=
  List.decidableBEx _ others

/-- Predicate `inBounds(x, y)`: `x >= 0 && x < MAP.width && y >= 0 && y < MAP.height`. -/
def inBounds (m : MapDef) (x y : Int) : Prop :=
  0 ≤ x ∧ x < m.width ∧ 0 ≤ y ∧ y < m.height

instance (m : MapDef) (x y : Int) : Decidable (inBounds m x y) := by
  unfold inBounds; infer_instance

/-- The resolver `applyMove(cube, cmd)` of `src/unnamed/part_000`: resolves one requested
move of the cube at `cube` against the map `m`, the current boulders `bs` and
the other teams' cubes `others`; returns the new cube position together with
the new boulder list.  `none` embeds the `undefined` command a `shift()` on
an empty queue produces. -/
def applyMove (m : MapDef) (others : List Cell) (cube : Cell) (bs : List Cell)
    (cmd : Option String) : Cell × List Cell :=
  match cmd with
  | none => (cube, bs)
  | some c =>
    let dx := dxOf c
    let dy := dyOf c
    if dx = 0 ∧ dy = 0 then (cube, bs)
    else
      let newX := cube.x + dx
      let newY := cube.y + dy
      if ¬ inBounds m newX newY then (cube, bs)
      else
        match boulderIndexAt bs newX newY with
        | some bi =>
            let pushX := newX + dx
            let pushY := newY + dy
            if ¬ inBounds m pushX pushY then (cube, bs)
            else if isWall m pushX pushY then (cube, bs)
            else if isLedge m pushX pushY then (cube, bs)
            else if isBoulder bs pushX pushY then (cube, bs)
            else if isCubeAt others pushX pushY then (cube, bs)
            else (⟨newX, newY⟩, bs.set bi ⟨pushX, pushY⟩)
        | none =>
            if isWall m newX newY then (cube, bs)
            else if isLedge m newX newY then
              if c ≠ "down" then (cube, bs)
              else
                let landingX := newX
                let landingY := newY + 1
                if ¬ inBounds m landingX landingY then (cube, bs)
                else if isWall m landingX landingY then (cube, bs)
                else if isLedge m landingX landingY then (cube, bs)
                else if isBoulder bs landingX landingY then (cube, bs)
                else if isCubeAt others landingX landingY then (cube, bs)
                else (⟨landingX, landingY⟩, bs)
            else if isCubeAt others newX newY then (cube, bs)
            else (⟨newX, newY⟩, bs)

/-- Step 1 of the tick handler: for each team in `Object.values(teams)` order
(red first, then blue), `shift()` one command and `applyMove` it.  Blue's
move sees red's already committed position and the boulders red may have
displaced. -/
def moveTeams (m : MapDef) (st : GameState) : GameState :=
  let r := applyMove m [st.blue.cube] st.red.cube st.boulders
    st.red.commandQueue.head?
  let b := applyMove m [r.1] st.blue.cube r.2 st.blue.commandQueue.head?
  { red := ⟨r.1, st.red.commandQueue.tail⟩
    blue := ⟨b.1, st.blue.commandQueue.tail⟩
    boulders := b.2
    raceStarted := st.raceStarted }

/-- Step 2 of the tick handler: `winner = null`, then for each team in order
(red, blue) `if (team.cube.x === MAP.hole.x && team.cube.y === MAP.hole.y)
winner = team.id` — the last matching team overwrites the earlier one. -/
def checkWinner (m : MapDef) (st : GameState) : Option TeamId :=
  let w : Option TeamId := none
  let w := if st.red.cube.x = m.hole.x ∧ st.red.cube.y = m.hole.y
    then some TeamId.red else w
  let w := if st.blue.cube.x = m.hole.x ∧ st.blue.cube.y = m.hole.y
    then some TeamId.blue else w
  w

/-- One `setInterval` tick: while not running nothing changes; while running
the teams move, the winner is computed, and a winner stops the race
(`raceStarted = false`).  The delayed 3-second reset is modelled as a
separate event (see `Reachable.resetEvent`). -/
def tick (m : MapDef) (st : GameState) : GameState × Option TeamId :=
  if st.raceStarted = false then (st, none)
  else
    let st1 := moveTeams m st
    let w := checkWinner m st1
    match w with
    | some _ => ({ st1 with raceStarted := false }, w)
    | none => (st1, w)

/-- Reset helper `resetTeamsToStart()`: cubes back to the current map's start cells,
queues cleared, boulders back to the map's initial boulders; `raceStarted`
is not touched by this function. -/
def resetTeamsToStart (m : MapDef) (st : GameState) : GameState :=
  { red := ⟨m.startRed, []⟩
    blue := ⟨m.startBlue, []⟩
    boulders := m.boulders
    raceStarted := st.raceStarted }

/-- The `start_race` handler: a no-op while already running; otherwise sets
`raceStarted = true` and hard-resets cubes, queues and boulders from the
current map. -/
def startRace (m : MapDef) (st : GameState) : GameState :=
  if st.raceStarted then st
  else
    { red := ⟨m.startRed, []⟩
      blue := ⟨m.startBlue, []⟩
      boulders := m.boulders
      raceStarted := true }

/-- Map change `loadNextMap()` after the new map `m'` has been loaded and validated:
stops the race and resets teams and boulders to the new map's data. -/
def loadNextMap (m' : MapDef) (_st : GameState) : GameState :=
  { red := ⟨m'.startRed, []⟩
    blue := ⟨m'.startBlue, []⟩
    boulders := m'.boulders
    raceStarted := false }

/-- Server start-up state: cubes at the map's starts, empty queues, boulders
from the map, race not started. -/
def initState (m : MapDef) : GameState :=
  { red := ⟨m.startRed, []⟩
    blue := ⟨m.startBlue, []⟩
    boulders := m.boulders
    raceStarted := false }

/-- Outcome of one `command` submission, in the source's check order. -/
inductive CmdOutcome where
  | invalidDirection
  | raceNotRunning
  | rateLimited (cooldownMs : Int)
  | accepted
deriving DecidableEq, Repr

/-- The `command` socket handler for one player: validate the direction
string, reject while the race is not running, reject while on cooldown,
otherwise stamp the player and push onto the player's team queue. -/
def commandStep (raceStarted : Bool) (now : Int) (p : Player)
    (queue : List String) (cmd : String) :
    CmdOutcome × Player × List String :=
  if ¬ (cmd ∈ (["up", "down", "left", "right"] : List String)) then
    (CmdOutcome.invalidDirection, p, queue)
  else if raceStarted = false then
    (CmdOutcome.raceNotRunning, p, queue)
  else
    let timeSinceLast := now - p.lastCommandTime
    if timeSinceLast < COMMAND_COOLDOWN_MS then
      (CmdOutcome.rateLimited (COMMAND_COOLDOWN_MS - timeSinceLast), p, queue)
    else
      (CmdOutcome.accepted, ⟨now⟩, queue ++ [cmd])

/-- Effect of one `command` submission on the game state: only the
submitting player's team queue can change. -/
def commandEvent (st : GameState) (tid : TeamId) (now : Int) (p : Player)
    (cmd : String) : GameState :=
  match tid with
  | TeamId.red =>
      { st with red := { st.red with
          commandQueue :=
            (commandStep st.raceStarted now p st.red.commandQueue cmd).2.2 } }
  | TeamId.blue =>
      { st with blue := { st.blue with
          commandQueue :=
            (commandStep st.raceStarted now p st.blue.commandQueue cmd).2.2 } }

namespace ServerJs

/-- The resolver `applyMove(cube, cmd)` of `src/server.js` (the earlier variant): the
raw target is clamped into the map rectangle, walls block, ledges are
down-only drop-throughs whose landing row is clamped; there are no
boulders. -/
def applyMove (m : MapDef) (cube : Cell) (cmd : Option String) : Cell :=
  match cmd with
  | none => cube
  | some c =>
    let newX := max 0 (min (m.width - 1) (cube.x + dxOf c))
    let newY := max 0 (min (m.height - 1) (cube.y + dyOf c))
    if isWall m newX newY then cube
    else if isLedge m newX newY then
      if c ≠ "down" then cube
      else
        let landingX := newX
        let landingY := min (m.height - 1) (newY + 1)
        if isWall m landingX landingY then cube
        else if isLedge m landingX landingY then cube
        else ⟨landingX, landingY⟩
    else ⟨newX, newY⟩

end ServerJs

/-- Well-formedness of a loaded map, as guaranteed by the character-grid
format (`loadMapFromFile` + `validateMap`): every symbol occupies its own
grid cell, so the two starts are distinct cells, no boulder sits on a start,
a wall or a ledge, and the boulder cells are pairwise distinct; starts and
boulders lie inside the grid and starts are not walls. -/
def WFMap (m : MapDef) : Prop :=
  m.startRed ≠ m.startBlue ∧
  inBounds m m.startRed.x m.startRed.y ∧
  ¬ isWall m m.startRed.x m.startRed.y ∧
  inBounds m m.startBlue.x m.startBlue.y ∧
  ¬ isWall m m.startBlue.x m.startBlue.y ∧
  m.startRed ∉ m.boulders ∧
  m.startBlue ∉ m.boulders ∧
  m.boulders.Nodup ∧
  (∀ b ∈ m.boulders,
    inBounds m b.x b.y ∧ ¬ isWall m b.x b.y ∧ ¬ isLedge m b.x b.y)

instance (m : MapDef) : Decidable (WFMap m) := by
  unfold WFMap; infer_instance

/-- States reachable by the running server: a validated map load, ticks,
command submissions, start requests, the (possibly stale) delayed
post-win reset, and map changes to another validated map. -/
inductive Reachable : MapDef → GameState → Prop where
  | load (m : MapDef) (hm : WFMap m) : Reachable m (initState m)
  | tickEvent (m : MapDef) (st : GameState) (h : Reachable m st) :
      Reachable m (tick m st).1
  | commandSub (m : MapDef) (st : GameState) (tid : TeamId) (now : Int)
      (p : Player) (cmd : String) (h : Reachable m st) :
      Reachable m (commandEvent st tid now p cmd)
  | startEvent (m : MapDef) (st : GameState) (h : Reachable m st) :
      Reachable m (startRace m st)
  | resetEvent (m : MapDef) (st : GameState) (h : Reachable m st) :
      Reachable m (resetTeamsToStart m st)
  | mapChange (m : MapDef) (st : GameState) (m' : MapDef)
      (h : Reachable m st) (hm' : WFMap m') :
      Reachable m' (loadNextMap m' st)

/-- Separation invariant: the two cubes occupy distinct cells, no boulder
shares a cell with a cube, and the boulder cells are pairwise distinct. -/
def SepInv (st : GameState) : Prop :=
  st.red.cube ≠ st.blue.cube ∧
  st.red.cube ∉ st.boulders ∧
  st.blue.cube ∉ st.boulders ∧
  st.boulders.Nodup

/-- Terrain-legality invariant: cubes are in bounds and off walls, boulders
are in bounds, off walls and off ledges. -/
def TerrainOk (m : MapDef) (st : GameState) : Prop :=
  inBounds m st.red.cube.x st.red.cube.y ∧
  ¬ isWall m st.red.cube.x st.red.cube.y ∧
  inBounds m st.blue.cube.x st.blue.cube.y ∧
  ¬ isWall m st.blue.cube.x st.blue.cube.y ∧
  (∀ b ∈ st.boulders,
    inBounds m b.x b.y ∧ ¬ isWall m b.x b.y ∧ ¬ isLedge m b.x b.y)

/-- The lookup `boulderIndexAt` returns `none` exactly when no boulder is at the cell. -/
theorem boulderIndexAt_eq_none_iff (bs : List Cell) (x y : Int) :
    boulderIndexAt bs x y = none ↔ (⟨x, y⟩ : Cell) ∉ bs := by
  induction bs with
  | nil => simp [boulderIndexAt]
  | cons b rest ih =>
    simp only [boulderIndexAt]
    by_cases h : b.x = x ∧ b.y = y
    · rw [if_pos h]
      have hb : b = (⟨x, y⟩ : Cell) := by cases b; simp_all
      simp [hb]
    · rw [if_neg h]
      have hb : b ≠ (⟨x, y⟩ : Cell) := by cases b; simp_all
      simp only [Option.map_eq_none', ih, List.mem_cons, not_or]
      constructor
      · intro hn; exact ⟨fun he => hb he.symm, hn⟩
      · intro hn; exact hn.2

/-- A `some` answer of `boulderIndexAt` is a valid index pointing at the
queried cell. -/
theorem boulderIndexAt_some_spec (bs : List Cell) (x y : Int) (i : Nat)
    (h : boulderIndexAt bs x y = some i) :
    ∃ hi : i < bs.length, bs.get ⟨i, hi⟩ = ⟨x, y⟩ := by
  induction bs generalizing i with
  | nil => simp [boulderIndexAt] at h
  | cons b rest ih =>
    simp only [boulderIndexAt] at h
    by_cases hb : b.x = x ∧ b.y = y
    · rw [if_pos hb] at h
      cases h
      exact ⟨by simp, by cases b; simp_all⟩
    · rw [if_neg hb] at h
      simp only [Option.map_eq_some'] at h
      obtain ⟨j, hj, hji⟩ := h
      subst hji
      obtain ⟨hjl, hje⟩ := ih j hj
      refine ⟨by simpa using Nat.succ_lt_succ hjl, ?_⟩
      simpa using hje

/-- Unfolding: `isBoulder` is membership of the cell in the boulder list. -/
theorem isBoulder_iff_mem (bs : List Cell) (x y : Int) :
    isBoulder bs x y ↔ (⟨x, y⟩ : Cell) ∈ bs := by
  unfold isBoulder
  constructor
  · intro h
    by_contra hmem
    exact h ((boulderIndexAt_eq_none_iff bs x y).mpr hmem)
  · intro h hn
    exact (boulderIndexAt_eq_none_iff bs x y).mp hn h

/-- With a single other cube, `isCubeAt` is equality with that cube's cell. -/
theorem isCubeAt_singleton (o : Cell) (x y : Int) :
    isCubeAt [o] x y ↔ o = (⟨x, y⟩ : Cell) := by
  unfold isCubeAt
  cases o; simp_all [Cell.mk.injEq, and_comm]

/-- After replacing index `i` (which held `t`) by a different value, `t` is
gone from a duplicate-free list. -/
theorem not_mem_set_of_nodup (bs : List Cell) (i : Nat) (t v : Cell)
    (hnd : bs.Nodup) (hi : i < bs.length) (ht : bs.get ⟨i, hi⟩ = t)
    (hv : v ≠ t) : t ∉ bs.set i v := by
  intro hmem
  obtain ⟨j, hj, hje⟩ := List.getElem_of_mem hmem
  by_cases hij : i = j
  · subst hij
    exact hv (by simpa [List.getElem_set_self hj] using hje)
  · have hj' : j < bs.length := by simpa using hj
    have h1 : bs[j] = t := by simpa [List.getElem_set_ne hij hj] using hje
    have h2 : bs[j] = bs[i] := by
      rw [h1, ← ht]; simp
    exact hij (hnd.getElem_inj_iff.mp h2).symm

/-- Setting an index to a fresh value keeps a list duplicate-free. -/
theorem nodup_set (bs : List Cell) (i : Nat) (v : Cell)
    (hnd : bs.Nodup) (hv : v ∉ bs) : (bs.set i v).Nodup := by
  induction bs generalizing i with
  | nil => simp
  | cons b rest ih =>
    rcases i with _ | i
    · simp only [List.set]
      simp only [List.nodup_cons] at hnd ⊢
      exact ⟨fun hc => hv (List.mem_cons_of_mem b hc), hnd.2⟩
    · simp only [List.set]
      simp only [List.nodup_cons] at hnd ⊢
      refine ⟨fun hc => ?_, ih i hnd.2 (fun hc => hv (List.mem_cons_of_mem b hc))⟩
      rcases List.mem_or_eq_of_mem_set hc with hc2 | hc2
      · exact hnd.1 hc2
      · exact hv (by simp [hc2])

/-- Exhaustive outcome analysis of `applyMove`: either nothing changes, or
the cube alone moves to a checked-free cell, or the cube steps onto a
boulder cell whose boulder is pushed one further cell. -/
theorem applyMove_cases (m : MapDef) (others : List Cell) (cube : Cell)
    (bs : List Cell) (cmd : Option String) :
    applyMove m others cube bs cmd = (cube, bs)
    ∨ (∃ nx ny,
        applyMove m others cube bs cmd = (⟨nx, ny⟩, bs) ∧
        inBounds m nx ny ∧ ¬ isWall m nx ny ∧ ¬ isBoulder bs nx ny ∧
        ¬ isCubeAt others nx ny)
    ∨ (∃ nx ny px py bi,
        applyMove m others cube bs cmd = (⟨nx, ny⟩, bs.set bi ⟨px, py⟩) ∧
        boulderIndexAt bs nx ny = some bi ∧
        inBounds m nx ny ∧ inBounds m px py ∧ ¬ isWall m px py ∧
        ¬ isLedge m px py ∧ ¬ isBoulder bs px py ∧
        ¬ isCubeAt others px py ∧ ¬ (px = nx ∧ py = ny)) := by
  cases cmd with
  | none => left; rfl
  | some c =>
    simp only [applyMove]
    by_cases h0 : dxOf c = 0 ∧ dyOf c = 0
    · rw [if_pos h0]; left; rfl
    rw [if_neg h0]
    by_cases hin : inBounds m (cube.x + dxOf c) (cube.y + dyOf c)
    case neg => rw [if_pos hin]; left; rfl
    rw [if_neg (not_not_intro hin)]
    rcases hb : boulderIndexAt bs (cube.x + dxOf c) (cube.y + dyOf c)
      with _ | bi
    · simp only [hb]
      by_cases hw : isWall m (cube.x + dxOf c) (cube.y + dyOf c)
      · rw [if_pos hw]; left; rfl
      rw [if_neg hw]
      by_cases hl : isLedge m (cube.x + dxOf c) (cube.y + dyOf c)
      case neg =>
        rw [if_neg hl]
        by_cases hc3 : isCubeAt others (cube.x + dxOf c) (cube.y + dyOf c)
        · rw [if_pos hc3]; left; rfl
        rw [if_neg hc3]
        right; left
        exact ⟨_, _, rfl, hin, hw, fun hbb => hbb hb, hc3⟩
      rw [if_pos hl]
      by_cases hd : c ≠ "down"
      · rw [if_pos hd]; left; rfl
      rw [if_neg hd]
      by_cases hin2 : inBounds m (cube.x + dxOf c) (cube.y + dyOf c + 1)
      case neg => rw [if_pos hin2]; left; rfl
      rw [if_neg (not_not_intro hin2)]
      by_cases hw2 : isWall m (cube.x + dxOf c) (cube.y + dyOf c + 1)
      · rw [if_pos hw2]; left; rfl
      rw [if_neg hw2]
      by_cases hl2 : isLedge m (cube.x + dxOf c) (cube.y + dyOf c + 1)
      · rw [if_pos hl2]; left; rfl
      rw [if_neg hl2]
      by_cases hb2 : isBoulder bs (cube.x + dxOf c) (cube.y + dyOf c + 1)
      · rw [if_pos hb2]; left; rfl
      rw [if_neg hb2]
      by_cases hc2 : isCubeAt others (cube.x + dxOf c) (cube.y + dyOf c + 1)
      · rw [if_pos hc2]; left; rfl
      rw [if_neg hc2]
      right; left
      exact ⟨_, _, rfl, hin2, hw2, hb2, hc2⟩
    · simp only [hb]
      by_cases h1 : inBounds m (cube.x + dxOf c + dxOf c) (cube.y + dyOf c + dyOf c)
      case neg => rw [if_pos h1]; left; rfl
      rw [if_neg (not_not_intro h1)]
      by_cases h2 : isWall m (cube.x + dxOf c + dxOf c) (cube.y + dyOf c + dyOf c)
      · rw [if_pos h2]; left; rfl
      rw [if_neg h2]
      by_cases h3 : isLedge m (cube.x + dxOf c + dxOf c) (cube.y + dyOf c + dyOf c)
      · rw [if_pos h3]; left; rfl
      rw [if_neg h3]
      by_cases h4 : isBoulder bs (cube.x + dxOf c + dxOf c) (cube.y + dyOf c + dyOf c)
      · rw [if_pos h4]; left; rfl
      rw [if_neg h4]
      by_cases h5 : isCubeAt others (cube.x + dxOf c + dxOf c) (cube.y + dyOf c + dyOf c)
      · rw [if_pos h5]; left; rfl
      rw [if_neg h5]
      right; right
      refine ⟨cube.x + dxOf c, cube.y + dyOf c,
        cube.x + dxOf c + dxOf c, cube.y + dyOf c + dyOf c, bi,
        rfl, hb, hin, h1, h2, h3, h4, h5, ?_⟩
      intro hee
      obtain ⟨he1, he2⟩ := hee
      exact h0 ⟨by omega, by omega⟩

/-- One resolved move keeps the mover's cube apart from the other cube and
the boulders, and keeps the boulder list duplicate-free. -/
theorem applyMove_sep (m : MapDef) (o cube : Cell) (bs : List Cell)
    (cmd : Option String) (hco : cube ≠ o) (hcb : cube ∉ bs) (hob : o ∉ bs)
    (hnd : bs.Nodup) :
    (applyMove m [o] cube bs cmd).1 ≠ o ∧
    (applyMove m [o] cube bs cmd).1 ∉ (applyMove m [o] cube bs cmd).2 ∧
    o ∉ (applyMove m [o] cube bs cmd).2 ∧
    (applyMove m [o] cube bs cmd).2.Nodup := by
  rcases applyMove_cases m [o] cube bs cmd with h | ⟨nx, ny, h, _, _, hnb, hnc⟩ |
    ⟨nx, ny, px, py, bi, h, hbi, _, _, _, _, hpb, hpc, hpne⟩
  · rw [h]; exact ⟨hco, hcb, hob, hnd⟩
  · rw [h]
    have h1 : o ≠ (⟨nx, ny⟩ : Cell) := fun he => hnc ((isCubeAt_singleton o nx ny).mpr he)
    have h2 : (⟨nx, ny⟩ : Cell) ∉ bs := fun he => hnb ((isBoulder_iff_mem bs nx ny).mpr he)
    exact ⟨fun he => h1 he.symm, h2, hob, hnd⟩
  · rw [h]
    obtain ⟨hlt, hget⟩ := boulderIndexAt_some_spec bs nx ny bi hbi
    have hmem : (⟨nx, ny⟩ : Cell) ∈ bs := hget ▸ List.get_mem bs bi hlt
    have hvnb : (⟨px, py⟩ : Cell) ∉ bs :=
      fun he => hpb ((isBoulder_iff_mem bs px py).mpr he)
    have hvno : o ≠ (⟨px, py⟩ : Cell) :=
      fun he => hpc ((isCubeAt_singleton o px py).mpr he)
    have hvne : (⟨px, py⟩ : Cell) ≠ (⟨nx, ny⟩ : Cell) := by
      intro he
      exact hpne (by cases he; exact ⟨rfl, rfl⟩)
    refine ⟨?_, ?_, ?_, ?_⟩
    · intro he
      exact hob (he ▸ hmem)
    · exact not_mem_set_of_nodup bs bi ⟨nx, ny⟩ ⟨px, py⟩ hnd hlt hget hvne
    · intro he
      rcases List.mem_or_eq_of_mem_set he with he2 | he2
      · exact hob he2
      · exact hvno he2
    · exact nodup_set bs bi ⟨px, py⟩ hnd hvnb

/-- One resolved move keeps the mover's cube in bounds and off walls, and
keeps every boulder in bounds, off walls and off ledges. -/
theorem applyMove_terrain (m : MapDef) (others : List Cell) (cube : Cell)
    (bs : List Cell) (cmd : Option String)
    (hcin : inBounds m cube.x cube.y) (hcw : ¬ isWall m cube.x cube.y)
    (hbs : ∀ b ∈ bs, inBounds m b.x b.y ∧ ¬ isWall m b.x b.y ∧ ¬ isLedge m b.x b.y) :
    inBounds m (applyMove m others cube bs cmd).1.x (applyMove m others cube bs cmd).1.y ∧
    ¬ isWall m (applyMove m others cube bs cmd).1.x (applyMove m others cube bs cmd).1.y ∧
    ∀ b ∈ (applyMove m others cube bs cmd).2,
      inBounds m b.x b.y ∧ ¬ isWall m b.x b.y ∧ ¬ isLedge m b.x b.y := by
  rcases applyMove_cases m others cube bs cmd with h | ⟨nx, ny, h, hib, hnw, _, _⟩ |
    ⟨nx, ny, px, py, bi, h, hbi, hib, hpin, hpw, hpl, _, _, _⟩
  · rw [h]; exact ⟨hcin, hcw, hbs⟩
  · rw [h]; exact ⟨hib, hnw, hbs⟩
  · rw [h]
    obtain ⟨hlt, hget⟩ := boulderIndexAt_some_spec bs nx ny bi hbi
    have hmem : (⟨nx, ny⟩ : Cell) ∈ bs := hget ▸ List.get_mem bs bi hlt
    refine ⟨hib, (hbs _ hmem).2.1, ?_⟩
    intro b hbmem
    rcases List.mem_or_eq_of_mem_set hbmem with hb2 | hb2
    · exact hbs b hb2
    · subst hb2; exact ⟨hpin, hpw, hpl⟩

/-- The tick either leaves the state alone (not running) or commits the
move phase, possibly clearing `raceStarted` when a winner is found. -/
theorem tick_fst_eq (m : MapDef) (st : GameState) :
    (tick m st).1 = st ∨ (tick m st).1 = moveTeams m st ∨
    (tick m st).1 = { moveTeams m st with raceStarted := false } := by
  unfold tick
  by_cases hr : st.raceStarted = false
  · rw [if_pos hr]; left; rfl
  · rw [if_neg hr]
    rcases hw : checkWinner m (moveTeams m st) with _ | w <;> simp only [hw]
    · exact Or.inr (Or.inl trivial)
    · exact Or.inr (Or.inr trivial)

/-- A state freshly populated from a well-formed map satisfies the
separation invariant. -/
theorem sepInv_of_map (m : MapDef) (st : GameState) (hm : WFMap m)
    (h1 : st.red.cube = m.startRed) (h2 : st.blue.cube = m.startBlue)
    (h3 : st.boulders = m.boulders) : SepInv st := by
  obtain ⟨hd, _, _, _, _, hrb, hbb, hnd, _⟩ := hm
  refine ⟨?_, ?_, ?_, ?_⟩
  · rw [h1, h2]; exact hd
  · rw [h1, h3]; exact hrb
  · rw [h2, h3]; exact hbb
  · rw [h3]; exact hnd

/-- A state freshly populated from a well-formed map satisfies the
terrain-legality invariant. -/
theorem terrainOk_of_map (m : MapDef) (st : GameState) (hm : WFMap m)
    (h1 : st.red.cube = m.startRed) (h2 : st.blue.cube = m.startBlue)
    (h3 : st.boulders = m.boulders) : TerrainOk m st := by
  obtain ⟨_, hri, hrw, hbi, hbw, _, _, _, hbl⟩ := hm
  refine ⟨?_, ?_, ?_, ?_, ?_⟩
  · rw [h1]; exact hri
  · rw [h1]; exact hrw
  · rw [h2]; exact hbi
  · rw [h2]; exact hbw
  · rw [h3]; exact hbl

/-- The move phase preserves the separation invariant. -/
theorem sepInv_moveTeams (m : MapDef) (st : GameState) (h : SepInv st) :
    SepInv (moveTeams m st) := by
  obtain ⟨h1, h2, h3, h4⟩ := h
  obtain ⟨hr1, hr2, hr3, hr4⟩ := applyMove_sep m st.blue.cube st.red.cube
    st.boulders st.red.commandQueue.head? h1 h2 h3 h4
  obtain ⟨hb1, hb2, hb3, hb4⟩ := applyMove_sep m
    (applyMove m [st.blue.cube] st.red.cube st.boulders st.red.commandQueue.head?).1
    st.blue.cube
    (applyMove m [st.blue.cube] st.red.cube st.boulders st.red.commandQueue.head?).2
    st.blue.commandQueue.head? (fun he => hr1 he.symm) hr3 hr2 hr4
  exact ⟨fun he => hb1 he.symm, hb3, hb2, hb4⟩

/-- The move phase preserves the terrain-legality invariant. -/
theorem terrainOk_moveTeams (m : MapDef) (st : GameState) (h : TerrainOk m st) :
    TerrainOk m (moveTeams m st) := by
  obtain ⟨h1, h2, h3, h4, h5⟩ := h
  obtain ⟨hr1, hr2, hr3⟩ := applyMove_terrain m [st.blue.cube] st.red.cube
    st.boulders st.red.commandQueue.head? h1 h2 h5
  obtain ⟨hb1, hb2, hb3⟩ := applyMove_terrain m
    [(applyMove m [st.blue.cube] st.red.cube st.boulders st.red.commandQueue.head?).1]
    st.blue.cube
    (applyMove m [st.blue.cube] st.red.cube st.boulders st.red.commandQueue.head?).2
    st.blue.commandQueue.head? h3 h4 hr3
  exact ⟨hr1, hr2, hb1, hb2, hb3⟩

/-- Along every reachable state the map is well-formed and both the
separation and terrain-legality invariants hold. -/
theorem reachable_inv (m : MapDef) (st : GameState) (h : Reachable m st) :
    WFMap m ∧ SepInv st ∧ TerrainOk m st := by
  induction h with
  | load m hm =>
      exact ⟨hm, sepInv_of_map m _ hm rfl rfl rfl, terrainOk_of_map m _ hm rfl rfl rfl⟩
  | tickEvent m st h ih =>
      obtain ⟨hm, hs, ht⟩ := ih
      refine ⟨hm, ?_, ?_⟩
      · rcases tick_fst_eq m st with he | he | he <;> rw [he]
        · exact hs
        · exact sepInv_moveTeams m st hs
        · exact sepInv_moveTeams m st hs
      · rcases tick_fst_eq m st with he | he | he <;> rw [he]
        · exact ht
        · exact terrainOk_moveTeams m st ht
        · exact terrainOk_moveTeams m st ht
  | commandSub m st tid now p cmd h ih =>
      obtain ⟨hm, hs, ht⟩ := ih
      cases tid
      · exact ⟨hm, hs, ht⟩
      · exact ⟨hm, hs, ht⟩
  | startEvent m st h ih =>
      obtain ⟨hm, hs, ht⟩ := ih
      unfold startRace
      by_cases hr : st.raceStarted
      · rw [if_pos hr]; exact ⟨hm, hs, ht⟩
      · rw [if_neg hr]
        exact ⟨hm, sepInv_of_map m _ hm rfl rfl rfl, terrainOk_of_map m _ hm rfl rfl rfl⟩
  | resetEvent m st h ih =>
      obtain ⟨hm, _, _⟩ := ih
      exact ⟨hm, sepInv_of_map m _ hm rfl rfl rfl, terrainOk_of_map m _ hm rfl rfl rfl⟩
  | mapChange m st mm h hm ih =>
      exact ⟨hm, sepInv_of_map mm _ hm rfl rfl rfl, terrainOk_of_map mm _ hm rfl rfl rfl⟩

/-- A valid command string has a nonzero delta. -/
theorem dir_delta_ne_zero (c : String)
    (hc : c ∈ (["up", "down", "left", "right"] : List String)) :
    ¬ (dxOf c = 0 ∧ dyOf c = 0) := by
  rcases hc with _ | ⟨_, _ | ⟨_, _ | ⟨_, _ | ⟨_, h⟩⟩⟩⟩
  · decide
  · decide
  · decide
  · decide
  · cases h

/-- A small concrete 8×8 map used to instantiate the theorems: one wall at
(4,4), one ledge at (2,5), one boulder at (3,2), goal at (7,7). -/
def mapA : MapDef :=
  { width := 8, height := 8, walls := [⟨4, 4⟩], ledges := [⟨2, 5⟩],
    hole := ⟨7, 7⟩, startRed := ⟨0, 0⟩, startBlue := ⟨1, 0⟩,
    boulders := [⟨3, 2⟩] }

/-- A concrete configuration with both cubes already on `mapA`'s goal cell
and empty queues, exercising the winner check alone. -/
def stBothOnHole : GameState :=
  { red := ⟨⟨7, 7⟩, []⟩, blue := ⟨⟨7, 7⟩, []⟩, boulders := [],
    raceStarted := true }

/-- C1 counterexample: a tick whose goal check sees both cubes on the goal
cell reports `blue` — the last team in the fixed iteration order — not the
first team `red` as claimed. -/
theorem claim1_counterexample :
    (moveTeams mapA stBothOnHole).red.cube = mapA.hole ∧
    (moveTeams mapA stBothOnHole).blue.cube = mapA.hole ∧
    stBothOnHole.raceStarted = true ∧
    (tick mapA stBothOnHole).2 = some TeamId.blue ∧
    (tick mapA stBothOnHole).2 ≠ some TeamId.red := by decide

/-- C1 (amended): whenever both teams' cubes are on the goal cell at
goal-check time of a running tick, the reported winner is the *last* team
encountered in the fixed iteration order, i.e. `blue`. -/
theorem claim1_last_team_wins (m : MapDef) (st : GameState)
    (h : st.raceStarted = true)
    (_hr : (moveTeams m st).red.cube = m.hole)
    (hb : (moveTeams m st).blue.cube = m.hole) :
    (tick m st).2 = some TeamId.blue := by
  unfold tick
  rw [if_neg (by simp [h])]
  have hw : checkWinner m (moveTeams m st) = some TeamId.blue := by
    unfold checkWinner
    dsimp only
    rw [if_pos ⟨by rw [hb], by rw [hb]⟩]
  simp only [hw]

/-- C1 witness: the amended theorem applied to the concrete
both-on-goal configuration. -/
theorem claim1_last_team_wins_witness :
    (tick mapA stBothOnHole).2 = some TeamId.blue :=
  claim1_last_team_wins mapA stBothOnHole rfl (by decide) (by decide)

/-- C4: a move whose target is in bounds, not a wall, not a ledge, not a
boulder and not another cube moves the cube exactly to the target, leaving
the boulders alone. -/
theorem claim4_normal_move (m : MapDef) (others : List Cell) (cube : Cell)
    (bs : List Cell) (c : String)
    (hc : c ∈ (["up", "down", "left", "right"] : List String))
    (hin : inBounds m (cube.x + dxOf c) (cube.y + dyOf c))
    (hw : ¬ isWall m (cube.x + dxOf c) (cube.y + dyOf c))
    (hl : ¬ isLedge m (cube.x + dxOf c) (cube.y + dyOf c))
    (hb : ¬ isBoulder bs (cube.x + dxOf c) (cube.y + dyOf c))
    (hcu : ¬ isCubeAt others (cube.x + dxOf c) (cube.y + dyOf c)) :
    applyMove m others cube bs (some c) =
      (⟨cube.x + dxOf c, cube.y + dyOf c⟩, bs) := by
  have h0 := dir_delta_ne_zero c hc
  have hbn : boulderIndexAt bs (cube.x + dxOf c) (cube.y + dyOf c) = none :=
    not_ne_iff.mp hb
  simp only [applyMove]
  rw [if_neg h0, if_neg (not_not_intro hin)]
  simp only [hbn]
  rw [if_neg hw, if_neg hl, if_neg hcu]

/-- C4 witness: on the concrete map, a `right` move from (5,5) lands
exactly on the free target cell (6,5). -/
theorem claim4_witness :
    applyMove mapA [⟨0, 0⟩] ⟨5, 5⟩ [⟨3, 2⟩] (some "right") = (⟨6, 5⟩, [⟨3, 2⟩]) :=
  (claim4_normal_move mapA [⟨0, 0⟩] ⟨5, 5⟩ [⟨3, 2⟩] "right" (by decide) (by decide)
    (by decide) (by decide) (by decide) (by decide)).trans (by decide)

/-- C5: an out-of-bounds target leaves cube and boulders untouched; a wall
target (with no boulder sitting on it) likewise; and in the `server.js`
variant a raw out-of-bounds target clamps back onto the cube's own legal
cell, leaving the cube byte-for-byte unchanged. -/
theorem claim5_wall_oob_unchanged (m : MapDef) (others : List Cell)
    (cube : Cell) (bs : List Cell) (c : String)
    (hc : c ∈ (["up", "down", "left", "right"] : List String)) :
    (¬ inBounds m (cube.x + dxOf c) (cube.y + dyOf c) →
      applyMove m others cube bs (some c) = (cube, bs)) ∧
    (isWall m (cube.x + dxOf c) (cube.y + dyOf c) →
      boulderIndexAt bs (cube.x + dxOf c) (cube.y + dyOf c) = none →
      applyMove m others cube bs (some c) = (cube, bs)) ∧
    (∀ (m2 : MapDef) (cube2 : Cell),
      inBounds m2 cube2.x cube2.y → ¬ isWall m2 cube2.x cube2.y →
      ¬ isLedge m2 cube2.x cube2.y →
      ¬ inBounds m2 (cube2.x + dxOf c) (cube2.y + dyOf c) →
      ServerJs.applyMove m2 cube2 (some c) = cube2) := by
  have h0 := dir_delta_ne_zero c hc
  refine ⟨fun hoob => ?_, fun hwall hnb => ?_, fun m2 cube2 hin2 hw2 hl2 hoob2 => ?_⟩
  · simp only [applyMove]
    rw [if_neg h0, if_pos hoob]
  · simp only [applyMove]
    rw [if_neg h0]
    by_cases hin : inBounds m (cube.x + dxOf c) (cube.y + dyOf c)
    case neg => rw [if_pos hin]
    rw [if_neg (not_not_intro hin)]
    simp only [hnb]
    rw [if_pos hwall]
  · obtain ⟨cx, cy⟩ := cube2
    simp only [ServerJs.applyMove]
    unfold inBounds at hin2 hoob2
    simp only at hin2 hoob2
    have hx : max 0 (min (m2.width - 1) (cx + dxOf c)) = cx := by
      rcases hc with _ | ⟨_, _ | ⟨_, _ | ⟨_, _ | ⟨_, hclast⟩⟩⟩⟩
      · have hdx : dxOf "up" = 0 := by decide
        have hdy : dyOf "up" = -1 := by decide
        rw [hdx] at hoob2 ⊢
        rw [hdy] at hoob2
        omega
      · have hdx : dxOf "down" = 0 := by decide
        have hdy : dyOf "down" = 1 := by decide
        rw [hdx] at hoob2 ⊢
        rw [hdy] at hoob2
        omega
      · have hdx : dxOf "left" = -1 := by decide
        have hdy : dyOf "left" = 0 := by decide
        rw [hdx] at hoob2 ⊢
        rw [hdy] at hoob2
        omega
      · have hdx : dxOf "right" = 1 := by decide
        have hdy : dyOf "right" = 0 := by decide
        rw [hdx] at hoob2 ⊢
        rw [hdy] at hoob2
        omega
      · cases hclast
    have hy : max 0 (min (m2.height - 1) (cy + dyOf c)) = cy := by
      rcases hc with _ | ⟨_, _ | ⟨_, _ | ⟨_, _ | ⟨_, hclast⟩⟩⟩⟩
      · have hdx : dxOf "up" = 0 := by decide
        have hdy : dyOf "up" = -1 := by decide
        rw [hdy] at hoob2 ⊢
        rw [hdx] at hoob2
        omega
      · have hdx : dxOf "down" = 0 := by decide
        have hdy : dyOf "down" = 1 := by decide
        rw [hdy] at hoob2 ⊢
        rw [hdx] at hoob2
        omega
      · have hdx : dxOf "left" = -1 := by decide
        have hdy : dyOf "left" = 0 := by decide
        rw [hdy] at hoob2 ⊢
        rw [hdx] at hoob2
        omega
      · have hdx : dxOf "right" = 1 := by decide
        have hdy : dyOf "right" = 0 := by decide
        rw [hdy] at hoob2 ⊢
        rw [hdx] at hoob2
        omega
      · cases hclast
    rw [hx, hy]
    rw [if_neg hw2, if_neg hl2]

/-- C5 witness: an `up` move from the top edge of the concrete map is
rejected with no state change. -/
theorem claim5_witness :
    applyMove mapA [⟨5, 5⟩] ⟨0, 0⟩ [⟨3, 2⟩] (some "up") = (⟨0, 0⟩, [⟨3, 2⟩]) :=
  (claim5_wall_oob_unchanged mapA [⟨5, 5⟩] ⟨0, 0⟩ [⟨3, 2⟩] "up" (by decide)).1
    (by decide)

/-- C2: a move into a boulder cell pushes all-or-nothing — if the cell one
further on is in bounds, not a wall, not a ledge, not a boulder and not
another cube, the boulder moves there and the cube takes its place;
otherwise cube and all boulders stay exactly where they were. -/
theorem claim2_boulder_push (m : MapDef) (others : List Cell) (cube : Cell)
    (bs : List Cell) (c : String) (bi : Nat)
    (hc : c ∈ (["up", "down", "left", "right"] : List String))
    (hin : inBounds m (cube.x + dxOf c) (cube.y + dyOf c))
    (hb : boulderIndexAt bs (cube.x + dxOf c) (cube.y + dyOf c) = some bi) :
    ((inBounds m (cube.x + dxOf c + dxOf c) (cube.y + dyOf c + dyOf c) ∧
      ¬ isWall m (cube.x + dxOf c + dxOf c) (cube.y + dyOf c + dyOf c) ∧
      ¬ isLedge m (cube.x + dxOf c + dxOf c) (cube.y + dyOf c + dyOf c) ∧
      ¬ isBoulder bs (cube.x + dxOf c + dxOf c) (cube.y + dyOf c + dyOf c) ∧
      ¬ isCubeAt others (cube.x + dxOf c + dxOf c) (cube.y + dyOf c + dyOf c)) →
      applyMove m others cube bs (some c) =
        (⟨cube.x + dxOf c, cube.y + dyOf c⟩,
         bs.set bi ⟨cube.x + dxOf c + dxOf c, cube.y + dyOf c + dyOf c⟩)) ∧
    (¬ (inBounds m (cube.x + dxOf c + dxOf c) (cube.y + dyOf c + dyOf c) ∧
      ¬ isWall m (cube.x + dxOf c + dxOf c) (cube.y + dyOf c + dyOf c) ∧
      ¬ isLedge m (cube.x + dxOf c + dxOf c) (cube.y + dyOf c + dyOf c) ∧
      ¬ isBoulder bs (cube.x + dxOf c + dxOf c) (cube.y + dyOf c + dyOf c) ∧
      ¬ isCubeAt others (cube.x + dxOf c + dxOf c) (cube.y + dyOf c + dyOf c)) →
      applyMove m others cube bs (some c) = (cube, bs)) := by
  have h0 := dir_delta_ne_zero c hc
  constructor
  · rintro ⟨s1, s2, s3, s4, s5⟩
    simp only [applyMove]
    rw [if_neg h0, if_neg (not_not_intro hin)]
    simp only [hb]
    rw [if_neg (not_not_intro s1), if_neg s2, if_neg s3, if_neg s4, if_neg s5]
  · intro hns
    simp only [applyMove]
    rw [if_neg h0, if_neg (not_not_intro hin)]
    simp only [hb]
    by_cases s1 : inBounds m (cube.x + dxOf c + dxOf c) (cube.y + dyOf c + dyOf c)
    case neg => rw [if_pos s1]
    rw [if_neg (not_not_intro s1)]
    by_cases s2 : isWall m (cube.x + dxOf c + dxOf c) (cube.y + dyOf c + dyOf c)
    · rw [if_pos s2]
    rw [if_neg s2]
    by_cases s3 : isLedge m (cube.x + dxOf c + dxOf c) (cube.y + dyOf c + dyOf c)
    · rw [if_pos s3]
    rw [if_neg s3]
    by_cases s4 : isBoulder bs (cube.x + dxOf c + dxOf c) (cube.y + dyOf c + dyOf c)
    · rw [if_pos s4]
    rw [if_neg s4]
    by_cases s5 : isCubeAt others (cube.x + dxOf c + dxOf c) (cube.y + dyOf c + dyOf c)
    · rw [if_pos s5]
    exact absurd ⟨s1, s2, s3, s4, s5⟩ hns

/-- C2 witness: the spec's worked example — cube at (2,2), boulder at
(3,2), `right`, with (4,2) free: cube ends at (3,2), boulder at (4,2). -/
theorem claim2_witness :
    applyMove mapA [⟨0, 0⟩] ⟨2, 2⟩ [⟨3, 2⟩] (some "right") = (⟨3, 2⟩, [⟨4, 2⟩]) :=
  ((claim2_boulder_push mapA [⟨0, 0⟩] ⟨2, 2⟩ [⟨3, 2⟩] "right" 0 (by decide)
    (by decide) (by decide)).1 (by decide)).trans (by decide)

/-- C3: a ledge target (no boulder on it) blocks every direction except
`down`; moving `down` drops the cube straight to the cell below the ledge
when that landing cell is in bounds, not a wall, not a ledge, not a boulder
and not another cube, and otherwise changes nothing. -/
theorem claim3_ledge_drop (m : MapDef) (others : List Cell) (cube : Cell)
    (bs : List Cell) (c : String)
    (hc : c ∈ (["up", "down", "left", "right"] : List String))
    (hnb : boulderIndexAt bs (cube.x + dxOf c) (cube.y + dyOf c) = none)
    (hl : isLedge m (cube.x + dxOf c) (cube.y + dyOf c)) :
    (c ≠ "down" → applyMove m others cube bs (some c) = (cube, bs)) ∧
    (c = "down" →
      inBounds m (cube.x + dxOf c) (cube.y + dyOf c) →
      ¬ isWall m (cube.x + dxOf c) (cube.y + dyOf c) →
      ((inBounds m (cube.x + dxOf c) (cube.y + dyOf c + 1) ∧
        ¬ isWall m (cube.x + dxOf c) (cube.y + dyOf c + 1) ∧
        ¬ isLedge m (cube.x + dxOf c) (cube.y + dyOf c + 1) ∧
        ¬ isBoulder bs (cube.x + dxOf c) (cube.y + dyOf c + 1) ∧
        ¬ isCubeAt others (cube.x + dxOf c) (cube.y + dyOf c + 1)) →
        applyMove m others cube bs (some c) =
          (⟨cube.x + dxOf c, cube.y + dyOf c + 1⟩, bs)) ∧
      (¬ (inBounds m (cube.x + dxOf c) (cube.y + dyOf c + 1) ∧
        ¬ isWall m (cube.x + dxOf c) (cube.y + dyOf c + 1) ∧
        ¬ isLedge m (cube.x + dxOf c) (cube.y + dyOf c + 1) ∧
        ¬ isBoulder bs (cube.x + dxOf c) (cube.y + dyOf c + 1) ∧
        ¬ isCubeAt others (cube.x + dxOf c) (cube.y + dyOf c + 1)) →
        applyMove m others cube bs (some c) = (cube, bs))) := by
  have h0 := dir_delta_ne_zero c hc
  constructor
  · intro hd
    simp only [applyMove]
    rw [if_neg h0]
    by_cases hin : inBounds m (cube.x + dxOf c) (cube.y + dyOf c)
    case neg => rw [if_pos hin]
    rw [if_neg (not_not_intro hin)]
    simp only [hnb]
    by_cases hw : isWall m (cube.x + dxOf c) (cube.y + dyOf c)
    · rw [if_pos hw]
    rw [if_neg hw, if_pos hl, if_pos hd]
  · intro hd hin hw
    simp only [applyMove]
    rw [if_neg h0, if_neg (not_not_intro hin)]
    simp only [hnb]
    rw [if_neg hw, if_pos hl, if_neg (not_not_intro hd)]
    constructor
    · rintro ⟨s1, s2, s3, s4, s5⟩
      rw [if_neg (not_not_intro s1), if_neg s2, if_neg s3, if_neg s4, if_neg s5]
    · intro hns
      by_cases s1 : inBounds m (cube.x + dxOf c) (cube.y + dyOf c + 1)
      case neg => rw [if_pos s1]
      rw [if_neg (not_not_intro s1)]
      by_cases s2 : isWall m (cube.x + dxOf c) (cube.y + dyOf c + 1)
      · rw [if_pos s2]
      rw [if_neg s2]
      by_cases s3 : isLedge m (cube.x + dxOf c) (cube.y + dyOf c + 1)
      · rw [if_pos s3]
      rw [if_neg s3]
      by_cases s4 : isBoulder bs (cube.x + dxOf c) (cube.y + dyOf c + 1)
      · rw [if_pos s4]
      rw [if_neg s4]
      by_cases s5 : isCubeAt others (cube.x + dxOf c) (cube.y + dyOf c + 1)
      · rw [if_pos s5]
      exact absurd ⟨s1, s2, s3, s4, s5⟩ hns

/-- C3 witness: the spec's worked example — moving `down` from (2,4) of the
concrete map onto the ledge at (2,5) lands at (2,6), skipping the ledge. -/
theorem claim3_witness :
    applyMove mapA [⟨0, 0⟩] ⟨2, 4⟩ [⟨3, 2⟩] (some "down") = (⟨2, 6⟩, [⟨3, 2⟩]) :=
  (((claim3_ledge_drop mapA [⟨0, 0⟩] ⟨2, 4⟩ [⟨3, 2⟩] "down" (by decide)
    (by decide) (by decide)).2 rfl (by decide) (by decide)).1 (by decide)).trans
    (by decide)

/-- While running, the tick's resulting team and boulder fields are exactly
those of the move phase (the winner branch only clears `raceStarted`). -/
theorem tick_run_fields (m : MapDef) (st : GameState)
    (h : st.raceStarted = true) :
    (tick m st).1.red = (moveTeams m st).red ∧
    (tick m st).1.blue = (moveTeams m st).blue ∧
    (tick m st).1.boulders = (moveTeams m st).boulders := by
  unfold tick
  rw [if_neg (by simp [h])]
  rcases hw : checkWinner m (moveTeams m st) with _ | w <;> simp only [hw] <;>
    exact ⟨trivial, trivial, trivial⟩

/-- C6: each running tick pops exactly the head of each team's queue; an
empty queue leaves that team's cube where it was, and a non-empty queue
resolves exactly the oldest command (red against the pre-tick state, blue
against red's committed result). -/
theorem claim6_fifo_drain (m : MapDef) (st : GameState)
    (h : st.raceStarted = true) :
    (tick m st).1.red.commandQueue = st.red.commandQueue.tail ∧
    (tick m st).1.blue.commandQueue = st.blue.commandQueue.tail ∧
    (st.red.commandQueue = [] → (tick m st).1.red.cube = st.red.cube) ∧
    (st.blue.commandQueue = [] → (tick m st).1.blue.cube = st.blue.cube) ∧
    (∀ c cs, st.red.commandQueue = c :: cs →
      (tick m st).1.red.cube =
        (applyMove m [st.blue.cube] st.red.cube st.boulders (some c)).1) ∧
    (∀ c cs, st.blue.commandQueue = c :: cs →
      (tick m st).1.blue.cube =
        (applyMove m
          [(applyMove m [st.blue.cube] st.red.cube st.boulders
            st.red.commandQueue.head?).1]
          st.blue.cube
          (applyMove m [st.blue.cube] st.red.cube st.boulders
            st.red.commandQueue.head?).2
          (some c)).1) := by
  obtain ⟨hred, hblue, _⟩ := tick_run_fields m st h
  refine ⟨?_, ?_, ?_, ?_, ?_, ?_⟩
  · rw [hred]; rfl
  · rw [hblue]; rfl
  · intro hq
    rw [hred]
    show (applyMove m [st.blue.cube] st.red.cube st.boulders
      st.red.commandQueue.head?).1 = st.red.cube
    rw [hq]
    rfl
  · intro hq
    rw [hblue]
    show (applyMove m [(applyMove m [st.blue.cube] st.red.cube st.boulders
        st.red.commandQueue.head?).1]
      st.blue.cube
      (applyMove m [st.blue.cube] st.red.cube st.boulders
        st.red.commandQueue.head?).2
      st.blue.commandQueue.head?).1 = st.blue.cube
    rw [hq]
    rfl
  · intro c cs hq
    rw [hred]
    show (applyMove m [st.blue.cube] st.red.cube st.boulders
      st.red.commandQueue.head?).1 =
      (applyMove m [st.blue.cube] st.red.cube st.boulders (some c)).1
    rw [hq]
    rfl
  · intro c cs hq
    rw [hblue]
    show (applyMove m [(applyMove m [st.blue.cube] st.red.cube st.boulders
        st.red.commandQueue.head?).1]
      st.blue.cube
      (applyMove m [st.blue.cube] st.red.cube st.boulders
        st.red.commandQueue.head?).2
      st.blue.commandQueue.head?).1 = _
    rw [hq]
    rfl

/-- A concrete running state on `mapA` with a queued command for red and an
empty queue for blue. -/
def stQueued : GameState :=
  { red := ⟨⟨0, 0⟩, ["right"]⟩, blue := ⟨⟨1, 5⟩, []⟩, boulders := [⟨3, 2⟩],
    raceStarted := true }

/-- C6 witness: on the concrete queued state, red's queue is drained to
empty and idle blue does not move. -/
theorem claim6_witness :
    (tick mapA stQueued).1.red.commandQueue = ([] : List String) ∧
    (tick mapA stQueued).1.blue.cube = (⟨1, 5⟩ : Cell) := by
  obtain ⟨h1, _, _, h4, _, _⟩ := claim6_fifo_drain mapA stQueued rfl
  exact ⟨h1, h4 rfl⟩

/-- C7: a start request while running is a no-op; while waiting it resets
both cubes to the current map's start cells, empties both queues, restores
the map's initial boulders and starts the race — in particular right after
any map change. -/
theorem claim7_start_race (m : MapDef) (st : GameState) :
    (st.raceStarted = true → startRace m st = st) ∧
    (st.raceStarted = false → startRace m st =
      { red := ⟨m.startRed, []⟩, blue := ⟨m.startBlue, []⟩,
        boulders := m.boulders, raceStarted := true }) ∧
    (∀ m2 : MapDef, startRace m2 (loadNextMap m2 st) =
      { red := ⟨m2.startRed, []⟩, blue := ⟨m2.startBlue, []⟩,
        boulders := m2.boulders, raceStarted := true }) := by
  refine ⟨fun h => ?_, fun h => ?_, fun m2 => ?_⟩
  · unfold startRace
    rw [if_pos h]
  · unfold startRace
    rw [if_neg (by simp [h])]
  · unfold startRace loadNextMap
    rw [if_neg (by simp)]

/-- C7 witness: starting from the waiting initial state of the concrete map
resets and starts the race. -/
theorem claim7_witness :
    startRace mapA (initState mapA) =
      { red := ⟨mapA.startRed, []⟩, blue := ⟨mapA.startBlue, []⟩,
        boulders := mapA.boulders, raceStarted := true } :=
  (claim7_start_race mapA (initState mapA)).2.1 rfl

/-- C8: every submission yields exactly one of four outcomes, checked in
order — invalid direction, race not running, cooldown, accepted; only
acceptance stamps the player and appends one command, every rejection
leaves both untouched; hence a second submission inside the cooldown window
is rejected and the queue has grown by exactly one. -/
theorem claim8_command_intake (rs : Bool) (now : Int) (p : Player)
    (q : List String) (cmd : String) :
    (¬ cmd ∈ (["up", "down", "left", "right"] : List String) →
      commandStep rs now p q cmd = (CmdOutcome.invalidDirection, p, q)) ∧
    (cmd ∈ (["up", "down", "left", "right"] : List String) → rs = false →
      commandStep rs now p q cmd = (CmdOutcome.raceNotRunning, p, q)) ∧
    (cmd ∈ (["up", "down", "left", "right"] : List String) → rs = true →
      now - p.lastCommandTime < COMMAND_COOLDOWN_MS →
      commandStep rs now p q cmd =
        (CmdOutcome.rateLimited (COMMAND_COOLDOWN_MS - (now - p.lastCommandTime)),
         p, q)) ∧
    (cmd ∈ (["up", "down", "left", "right"] : List String) → rs = true →
      ¬ now - p.lastCommandTime < COMMAND_COOLDOWN_MS →
      commandStep rs now p q cmd = (CmdOutcome.accepted, ⟨now⟩, q ++ [cmd])) ∧
    (∀ (now2 : Int) (cmd2 : String),
      cmd ∈ (["up", "down", "left", "right"] : List String) →
      cmd2 ∈ (["up", "down", "left", "right"] : List String) →
      rs = true → ¬ now - p.lastCommandTime < COMMAND_COOLDOWN_MS →
      now2 - now < COMMAND_COOLDOWN_MS →
      commandStep rs now2 (commandStep rs now p q cmd).2.1
          (commandStep rs now p q cmd).2.2 cmd2 =
        (CmdOutcome.rateLimited (COMMAND_COOLDOWN_MS - (now2 - now)),
         ⟨now⟩, q ++ [cmd]) ∧
      ((commandStep rs now2 (commandStep rs now p q cmd).2.1
          (commandStep rs now p q cmd).2.2 cmd2).2.2).length = q.length + 1) := by
  refine ⟨fun hinv => ?_, fun hv hrs => ?_, fun hv hrs hcool => ?_,
    fun hv hrs hcool => ?_, fun now2 cmd2 hv hv2 hrs hcool hwin => ?_⟩
  · unfold commandStep
    rw [if_pos hinv]
  · unfold commandStep
    subst hrs
    rw [if_neg (not_not_intro hv), if_pos rfl]
  · unfold commandStep
    subst hrs
    rw [if_neg (not_not_intro hv), if_neg (by simp), if_pos hcool]
  · unfold commandStep
    subst hrs
    rw [if_neg (not_not_intro hv), if_neg (by simp), if_neg hcool]
  · subst hrs
    have hfirst : commandStep true now p q cmd =
        (CmdOutcome.accepted, ⟨now⟩, q ++ [cmd]) := by
      unfold commandStep
      rw [if_neg (not_not_intro hv), if_neg (by simp), if_neg hcool]
    rw [hfirst]
    have hsecond : commandStep true now2 ⟨now⟩ (q ++ [cmd]) cmd2 =
        (CmdOutcome.rateLimited (COMMAND_COOLDOWN_MS - (now2 - now)),
         ⟨now⟩, q ++ [cmd]) := by
      unfold commandStep
      rw [if_neg (not_not_intro hv2), if_neg (by simp), if_pos hwin]
    rw [hsecond]
    exact ⟨rfl, by simp⟩

/-- C8 witness: `"up"` accepted at time 2000, `"left"` 500 ms later is
rate-limited with the queue one entry longer. -/
theorem claim8_witness :
    commandStep true 2500 (commandStep true 2000 ⟨0⟩ [] "up").2.1
        (commandStep true 2000 ⟨0⟩ [] "up").2.2 "left" =
      (CmdOutcome.rateLimited (COMMAND_COOLDOWN_MS - (2500 - 2000)),
       ⟨2000⟩, [] ++ ["up"]) ∧
    ((commandStep true 2500 (commandStep true 2000 ⟨0⟩ [] "up").2.1
        (commandStep true 2000 ⟨0⟩ [] "up").2.2 "left").2.2).length =
      ([] : List String).length + 1 :=
  (claim8_command_intake true 2000 ⟨0⟩ [] "up").2.2.2.2 2500 "left"
    (by decide) (by decide) rfl (by decide) (by decide)

/-- C9 counterexample (negation of the claim): in no reachable running
state can the goal check of a tick find both cubes on the goal cell — the
second mover is blocked by the first mover's already committed position, so
simultaneous arrival is impossible. -/
theorem claim9_counterexample :
    ¬ ∃ (m : MapDef) (st : GameState), Reachable m st ∧
      st.raceStarted = true ∧
      (moveTeams m st).red.cube = m.hole ∧
      (moveTeams m st).blue.cube = m.hole := by
  rintro ⟨m, st, hreach, _, hr, hb⟩
  have hsep := sepInv_moveTeams m st (reachable_inv m st hreach).2.1
  exact hsep.1 (hr.trans hb.symm)

/-- C9 (amended): because each team's move is resolved against the other
cube's already committed position, the two cubes never coincide; at
goal-check time of any reachable running tick at most one cube is on the
goal cell. -/
theorem claim9_no_simultaneous_arrival (m : MapDef) (st : GameState)
    (h : Reachable m st) (_hrun : st.raceStarted = true) :
    ¬ ((moveTeams m st).red.cube = m.hole ∧
       (moveTeams m st).blue.cube = m.hole) := by
  rintro ⟨hr, hb⟩
  have hsep := sepInv_moveTeams m st (reachable_inv m st h).2.1
  exact hsep.1 (hr.trans hb.symm)

/-- C9 witness: the amended theorem applied to the freshly started race on
the concrete map. -/
theorem claim9_witness :
    ¬ ((moveTeams mapA (startRace mapA (initState mapA))).red.cube = mapA.hole ∧
       (moveTeams mapA (startRace mapA (initState mapA))).blue.cube = mapA.hole) :=
  claim9_no_simultaneous_arrival mapA (startRace mapA (initState mapA))
    (Reachable.startEvent mapA (initState mapA) (Reachable.load mapA (by decide)))
    (by decide)

/-- C10: terrain legality is an invariant of every reachable state — no
cube on a wall or out of bounds, no boulder on a wall, a ledge or out of
bounds. -/
theorem claim10_terrain_invariant (m : MapDef) (st : GameState)
    (h : Reachable m st) : TerrainOk m st :=
  (reachable_inv m st h).2.2

/-- C10 witness: the invariant at the concrete map's initial state. -/
theorem claim10_witness : TerrainOk mapA (initState mapA) :=
  claim10_terrain_invariant mapA (initState mapA)
    (Reachable.load mapA (by decide))
